import Mathlib

/-!
Verification development for the go-digest library: digests of the form
`<algorithm>:<encoded>`, their grammar and validation, the algorithm
registry, digesters and verifiers.

Strings are embedded as `List Char` (Go strings are byte slices; all inputs
of interest here are ASCII).  External hash primitives (SHA-2, BLAKE3) are
out of scope for the library itself and are modelled as abstract functions
from the written bytes to the raw hash bytes.
-/

namespace GoDigest

/-- Error taxonomy of digest validation: `ErrDigestInvalidFormat`,
`ErrDigestInvalidLength`, `ErrDigestUnsupported`. -/
inductive DigestError where
  | invalidFormat
  | invalidLength
  | unsupported
deriving DecidableEq, Repr

/-- Character class `[a-zA-Z0-9-_+.]` of the algorithm portion of
`DigestRegexp`. -/
def isAlgChar (c : Char) : Bool :=
  decide (('a' ≤ c ∧ c ≤ 'z') ∨ ('A' ≤ c ∧ c ≤ 'Z') ∨ ('0' ≤ c ∧ c ≤ '9') ∨
    c = '-' ∨ c = '_' ∨ c = '+' ∨ c = '.')

/-- Character class `[a-fA-F0-9]` of the encoded portion of `DigestRegexp`. -/
def isHexChar (c : Char) : Bool :=
  decide (('0' ≤ c ∧ c ≤ '9') ∨ ('a' ≤ c ∧ c ≤ 'f') ∨ ('A' ≤ c ∧ c ≤ 'F'))

/-- Character class `[a-f0-9]` of the per-algorithm anchored encoded
regular expressions (uppercase disallowed). -/
def isLowerHexChar (c : Char) : Bool :=
  decide (('0' ≤ c ∧ c ≤ '9') ∨ ('a' ≤ c ∧ c ≤ 'f'))

/-- `strings.Index(s, ":")`: position of the first `':'`, `none` when absent
(Go returns `-1`). -/
def indexOfColon : List Char → Option Nat
  | [] => none
  | c :: rest => if c = ':' then some 0 else (indexOfColon rest).map (· + 1)

/-- `DigestRegexpAnchored = ^[a-zA-Z0-9-_+.]+:[a-fA-F0-9]+$`.  Since neither
character class contains `':'`, the regular expression matches exactly when
the string splits at its first `':'` into a nonempty algorithm part over
`isAlgChar` and a nonempty encoded part over `isHexChar`. -/
def digestRegexpAnchoredMatch (s : List Char) : Bool :=
  match indexOfColon s with
  | none => false
  | some i =>
    !(s.take i).isEmpty && (s.take i).all isAlgChar &&
      !(s.drop (i + 1)).isEmpty && (s.drop (i + 1)).all isHexChar

/-- An entry of the `Algorithms` map: the `algorithm` struct, keeping its
`name`, its raw hash `Size` in bytes and the availability of the underlying
`crypto.Hash` (the encoding is always `Hex`, so `HashSize = 2 * size`). -/
structure AlgEntry where
  name : List Char
  size : Nat
  available : Bool
deriving DecidableEq, Repr

def sha256Name : List Char := "sha256".toList
def sha384Name : List Char := "sha384".toList
def sha512Name : List Char := "sha512".toList

/-- `SHA256 = algorithm{name: "sha256", hash: crypto.SHA256, encoding: Hex}`;
crypto.SHA256 has 32-byte output and is linked (imported by the package),
hence available. -/
def sha256Entry : AlgEntry := ⟨sha256Name, 32, true⟩

/-- `SHA384`: crypto.SHA384, 48-byte output, available. -/
def sha384Entry : AlgEntry := ⟨sha384Name, 48, true⟩

/-- `SHA512`: crypto.SHA512, 64-byte output, available. -/
def sha512Entry : AlgEntry := ⟨sha512Name, 64, true⟩

/-- Lookup in the `Algorithms` map
`{"sha256": SHA256, "sha384": SHA384, "sha512": SHA512}`. -/
def algorithmsLookup (k : List Char) : Option AlgEntry :=
  if k = sha256Name then some sha256Entry
  else if k = sha384Name then some sha384Entry
  else if k = sha512Name then some sha512Entry
  else none

/-- `Digest.Validate`:
locate the first `':'`; its absence, being last, or the whole string failing
`DigestRegexpAnchored` give `ErrDigestInvalidFormat`; an algorithm that is
missing from `Algorithms` or unavailable gives `ErrDigestUnsupported`; an
encoded portion whose length differs from `HashSize = 2 * Size` gives
`ErrDigestInvalidLength`; otherwise the digest is valid (`nil`, here
`none`). -/
def digestValidate (s : List Char) : Option DigestError :=
  match indexOfColon s with
  | none => some .invalidFormat
  | some i =>
    if i + 1 = s.length then some .invalidFormat
    else if !digestRegexpAnchoredMatch s then some .invalidFormat
    else
      match algorithmsLookup (s.take i) with
      | none => some .unsupported
      | some alg =>
        if !alg.available then some .unsupported
        else if 2 * alg.size ≠ (s.drop (i + 1)).length then some .invalidLength
        else none

/-- `Digest.String()` returns the underlying string. -/
def digestString (d : List Char) : List Char := d

/-- `Parse(s) = (Digest(s), Digest(s).Validate())`. -/
def parseDigest (s : List Char) : List Char × Option DigestError :=
  (digestString s, digestValidate s)

/-- `NewDigestFromHash(alg, hash) = Digest(fmt.Sprintf("%s:%s", alg, hash))`. -/
def newDigestFromHash (alg hash : List Char) : List Char :=
  alg ++ ':' :: hash

/-- `Digest.Algorithm()`: the algorithm portion before the separator, looked
up in `Algorithms`; `none` models the panics (no separator, empty identifier,
unrecognized, unavailable). -/
def digestAlgorithmFn (s : List Char) : Option AlgEntry :=
  match indexOfColon s with
  | none => none
  | some i =>
    let identifier := s.take i
    if identifier.isEmpty then none
    else
      match algorithmsLookup identifier with
      | none => none
      | some alg => if alg.available then some alg else none

/-- `Digest.Hash()`: the portion after the separator; `none` models the
panic when there is no separator. -/
def digestHashFn (s : List Char) : Option (List Char) :=
  (indexOfColon s).map (fun i => s.drop (i + 1))

/-! ### Hex encoding (`Hex.EncodeToString`), digester and verifier

An external hash implementation is modelled as a function
`H : List Nat → List Nat` from all bytes written so far to the raw hash
bytes (`hash.Sum(nil)`); the `hash.Hash` contract makes the output
`Size()` bytes long. -/

def hexDigitChars : List Char := "0123456789abcdef".toList

/-- The two lowercase hex digits of one byte, high nibble first. -/
def hexEncodeByte (b : Nat) : List Char :=
  [hexDigitChars.getD (b / 16) 'x', hexDigitChars.getD (b % 16) 'x']

/-- `Hex.EncodeToString` (RFC 4648 lowercase base 16) on a byte list. -/
def hexEncode (l : List Nat) : List Char :=
  (l.map hexEncodeByte).flatten

/-- The `digester` struct: an algorithm name together with the live hash
sink, modelled by the bytes written into it so far. -/
structure Digester where
  name : List Char
  written : List Nat
deriving DecidableEq, Repr

/-- Writing to `digester.Hash()` appends to the accumulated state. -/
def digesterWrite (d : Digester) (p : List Nat) : Digester :=
  ⟨d.name, d.written ++ p⟩

/-- `digester.Digest() = NewDigestFromHash(d.name, hex(d.hash.Sum(nil)))`:
a snapshot of the current state; the state itself is left untouched
(`Sum` neither consumes nor resets the sink). -/
def digesterDigest (H : List Nat → List Nat) (d : Digester) : List Char :=
  newDigestFromHash d.name (hexEncode (H d.written))

/-- `Algorithm.FromBytes(p)`: build a fresh digester, write `p` into its
sink, return the snapshot. -/
def algorithmFromBytes (H : List Nat → List Nat) (name : List Char)
    (p : List Nat) : List Char :=
  digesterDigest H (digesterWrite ⟨name, []⟩ p)

/-- Modelled from the spec: the `hashVerifier` implementation
(verifiers.go) is absent from the provided sources; only its constructor
`Digest.Verifier` and its tests are present.  Per the spec, a Verifier owns
a Digester plus the immutable target digest it was constructed against. -/
structure HashVerifier where
  digest : List Char
  digester : Digester
deriving DecidableEq, Repr

/-- `Digest.Verifier()`: resolves `d.Algorithm()` (panic — `none` — if
invalid or unsupported) and binds a fresh digester for it. -/
def digestVerifier (s : List Char) : Option HashVerifier :=
  (digestAlgorithmFn s).map (fun alg => ⟨s, ⟨alg.name, []⟩⟩)

/-- Modelled from the spec: `hashVerifier.Write` forwards the bytes to the
digester's hash sink. -/
def verifierWrite (v : HashVerifier) (p : List Nat) : HashVerifier :=
  ⟨v.digest, digesterWrite v.digester p⟩

/-- Modelled from the spec: `hashVerifier.Verified()` recomputes the
digester's current digest and compares it byte-for-byte against the
target; nothing is cached. -/
def verifierVerified (H : List Nat → List Nat) (v : HashVerifier) : Bool :=
  v.digest = digesterDigest H v.digester

/-! ### The registerable algorithm registry (`RegisterAlgorithm`) -/

/-- The `CryptoHash` interface: availability and raw output size (the
`New()` stream itself is the external hash, modelled separately). -/
structure CryptoHash where
  available : Bool
  size : Nat
deriving DecidableEq, Repr

/-- A compiled anchored matcher `^[a-f0-9]{hexLength}$`. -/
structure HexRegex where
  hexLength : Nat
deriving DecidableEq, Repr

/-- Matching the anchored expression `^[a-f0-9]{n}$`: exactly `n`
characters, all lowercase hex. -/
def hexRegexMatch (r : HexRegex) (enc : List Char) : Bool :=
  enc.length = r.hexLength && enc.all isLowerHexChar

/-- `hexDigestRegex`: the matcher `^[a-f0-9]{Size*2}$` derived from the
implementation's size. -/
def hexDigestRegex (impl : CryptoHash) : HexRegex :=
  ⟨impl.size * 2⟩

def isLowerAlnum (c : Char) : Bool :=
  decide (('a' ≤ c ∧ c ≤ 'z') ∨ ('0' ≤ c ∧ c ≤ '9'))

def isAlgSep (c : Char) : Bool :=
  decide (c = '+' ∨ c = '.' ∨ c = '_' ∨ c = '-')

/-- Tail of `algorithmRegexp` after an initial `[a-z0-9]` character: any
further `[a-z0-9]`, or a separator that must be followed by `[a-z0-9]`. -/
def algRegexpTail : List Char → Bool
  | [] => true
  | c :: rest =>
    if isLowerAlnum c then algRegexpTail rest
    else if isAlgSep c then
      match rest with
      | [] => false
      | d :: rest2 => isLowerAlnum d && algRegexpTail rest2
    else false

/-- `algorithmRegexp = ^[a-z0-9]+([+._-][a-z0-9]+)*$`: groups of lowercase
alphanumerics joined by single separators. -/
def algorithmRegexpMatch : List Char → Bool
  | [] => false
  | c :: rest => isLowerAlnum c && algRegexpTail rest

/-- The registerable state: the `algorithms` map and the
`anchoredEncodedRegexps` map, both keyed by algorithm name. -/
structure Registry where
  algorithms : List (List Char × CryptoHash)
  regexps : List (List Char × HexRegex)
deriving DecidableEq, Repr

def registryLookup (st : Registry) (a : List Char) : Option CryptoHash :=
  (st.algorithms.find? (fun e => e.1 = a)).map (·.2)

def regexpsLookup (st : Registry) (a : List Char) : Option HexRegex :=
  (st.regexps.find? (fun e => e.1 = a)).map (·.2)

/-- `RegisterAlgorithm(algorithm, implementation)`: panic (`none`) when the
name violates `algorithmRegexp`; `false` leaving the state untouched when
the name is already registered; otherwise store the implementation and the
derived `hexDigestRegex` matcher and return `true`. -/
def registerAlgorithm (st : Registry) (a : List Char) (impl : CryptoHash) :
    Option (Registry × Bool) :=
  if !algorithmRegexpMatch a then none
  else if (registryLookup st a).isSome then some (st, false)
  else some (⟨st.algorithms ++ [(a, impl)], st.regexps ++ [(a, hexDigestRegex impl)]⟩, true)

/-- `Algorithm.Available()`: registered and the implementation reports
available. -/
def registryAvailable (st : Registry) (a : List Char) : Bool :=
  match registryLookup st a with
  | none => false
  | some h => h.available

/-- `Algorithm.Size()`: `0` when unknown. -/
def registrySize (st : Registry) (a : List Char) : Nat :=
  match registryLookup st a with
  | none => 0
  | some h => h.size

/-- `Algorithm.Validate(encoded)`: no registered matcher gives
`ErrDigestUnsupported`; a length different from `Size()*2` gives
`ErrDigestInvalidLength`; a failed match of the anchored lowercase-hex
matcher gives `ErrDigestInvalidFormat`; otherwise valid. -/
def algorithmValidate (st : Registry) (a : List Char) (encoded : List Char) :
    Option DigestError :=
  match regexpsLookup st a with
  | none => some .unsupported
  | some r =>
    if registrySize st a * 2 ≠ encoded.length then some .invalidLength
    else if hexRegexMatch r encoded then none
    else some .invalidFormat

/-- `crypto.SHA256` as a `CryptoHash`: linked by the package, 32 bytes. -/
def cryptoSHA256 : CryptoHash := ⟨true, 32⟩

/-- `crypto.SHA384`: linked, 48 bytes. -/
def cryptoSHA384 : CryptoHash := ⟨true, 48⟩

/-- `crypto.SHA512`: linked, 64 bytes. -/
def cryptoSHA512 : CryptoHash := ⟨true, 64⟩

/-- One registration step of an `init` function; a failed registration
keeps the state (registration of the fixed, distinct, well-formed names
never panics). -/
def registerStep (st : Registry) (a : List Char) (impl : CryptoHash) : Registry :=
  match registerAlgorithm st a impl with
  | none => st
  | some (st2, _) => st2

/-- The registry after `init` in sha.go ran:
`RegisterAlgorithm(SHA256, crypto.SHA256)` etc. -/
def initRegistry : Registry :=
  registerStep
    (registerStep
      (registerStep ⟨[], []⟩ sha256Name cryptoSHA256)
      sha384Name cryptoSHA384)
    sha512Name cryptoSHA512

/-- `Canonical = SHA256`. -/
def canonicalName : List Char := sha256Name

/-- `Algorithm.Set(value)` on a receiver holding `a`: the empty string
selects `Canonical`, any other value is taken verbatim; the receiver is
assigned first, then availability is checked, returning
`ErrDigestUnsupported` without rollback on failure.  The result pairs the
receiver's final contents with the returned error. -/
def algorithmSet (st : Registry) (_prior : List Char) (value : List Char) :
    List Char × Option DigestError :=
  let a2 := if value = [] then canonicalName else value
  if !registryAvailable st a2 then (a2, some .unsupported) else (a2, none)

/-- `AlgorithmFlag.Set(value)` on a flag holding `flag` (`none` = nil
Algorithm): the empty string assigns `Canonical`; otherwise the value is
looked up in `Algorithms` and checked for availability before any
assignment, returning `ErrDigestUnsupported` and leaving the flag intact on
failure.  The result pairs the flag's final contents with the returned
error. -/
def algorithmFlagSet (flag : Option AlgEntry) (value : List Char) :
    Option AlgEntry × Option DigestError :=
  if value = [] then (some sha256Entry, none)
  else
    match algorithmsLookup value with
    | none => (flag, some .unsupported)
    | some alg =>
      if !alg.available then (flag, some .unsupported)
      else (some alg, none)

/-! ### Helper lemmas -/

theorem isAlgChar_ne_colon {c : Char} (h : isAlgChar c = true) : ¬ c = ':' := by
  intro hc
  rw [hc] at h
  exact absurd h (by decide)

theorem isLowerHexChar_isHexChar {c : Char} (h : isLowerHexChar c = true) :
    isHexChar c = true := by
  have hp := of_decide_eq_true h
  apply decide_eq_true
  rcases hp with h1 | h2
  · exact Or.inl h1
  · exact Or.inr (Or.inl h2)

theorem indexOfColon_append (name enc : List Char) (h : ∀ c ∈ name, ¬ c = ':') :
    indexOfColon (name ++ ':' :: enc) = some name.length := by
  induction name with
  | nil => simp [indexOfColon]
  | cons a t ih =>
    have ha : ¬ a = ':' := h a (List.mem_cons_self a t)
    simp only [List.cons_append, indexOfColon, if_neg ha, List.append_eq]
    rw [ih (fun c hc => h c (List.mem_cons_of_mem a hc))]
    rfl

theorem indexOfColon_spec (s : List Char) (i : Nat) (h : indexOfColon s = some i) :
    i < s.length ∧ s.take i ++ ':' :: s.drop (i + 1) = s ∧
      ∀ c ∈ s.take i, ¬ c = ':' := by
  induction s generalizing i with
  | nil => simp [indexOfColon] at h
  | cons a t ih =>
    simp only [indexOfColon] at h
    by_cases ha : a = ':'
    · rw [if_pos ha] at h
      have hi : i = 0 := by
        cases h
        rfl
      subst hi
      refine ⟨Nat.succ_pos _, ?_, ?_⟩
      · rw [ha]
        rfl
      · intro c hc
        exact absurd hc (by simp)
    · rw [if_neg ha] at h
      cases hj : indexOfColon t with
      | none =>
        rw [hj] at h
        simp at h
      | some j =>
        rw [hj] at h
        have hi : i = j + 1 := by
          cases h
          rfl
        subst hi
        obtain ⟨hlt, heq, hnc⟩ := ih j hj
        refine ⟨by simpa using Nat.succ_lt_succ hlt, ?_, ?_⟩
        · simp only [List.take_succ_cons, List.drop_succ_cons, List.cons_append]
          rw [heq]
        · intro c hc
          simp only [List.take_succ_cons, List.mem_cons] at hc
          rcases hc with rfl | hc
          · exact ha
          · exact hnc c hc

theorem take_append_colon (name enc : List Char) :
    (name ++ ':' :: enc).take name.length = name := by
  induction name with
  | nil => rfl
  | cons a t ih =>
    simp only [List.cons_append, List.length_cons, List.take_succ_cons]
    rw [ih]

theorem drop_append_colon (name enc : List Char) :
    (name ++ ':' :: enc).drop (name.length + 1) = enc := by
  induction name with
  | nil => rfl
  | cons a t ih =>
    simp only [List.cons_append, List.length_cons, List.drop_succ_cons]
    exact ih

theorem digestRegexpAnchoredMatch_eq (s : List Char) (i : Nat)
    (h : indexOfColon s = some i) :
    digestRegexpAnchoredMatch s =
      (!(s.take i).isEmpty && (s.take i).all isAlgChar &&
        !(s.drop (i + 1)).isEmpty && (s.drop (i + 1)).all isHexChar) := by
  unfold digestRegexpAnchoredMatch
  rw [h]

theorem digestRegexpAnchoredMatch_append (name enc : List Char)
    (hn : name ≠ []) (ha : name.all isAlgChar = true)
    (he : enc ≠ []) (hh : enc.all isHexChar = true) :
    digestRegexpAnchoredMatch (name ++ ':' :: enc) = true := by
  have hnc : ∀ c ∈ name, ¬ c = ':' :=
    fun c hc => isAlgChar_ne_colon (List.all_eq_true.mp ha c hc)
  rw [digestRegexpAnchoredMatch_eq _ name.length (indexOfColon_append name enc hnc),
    take_append_colon, drop_append_colon]
  simp [hn, he, ha, hh]

theorem algorithmsLookup_spec (k : List Char) (a : AlgEntry)
    (h : algorithmsLookup k = some a) :
    a.name = k ∧ a.available = true ∧
      (a = sha256Entry ∨ a = sha384Entry ∨ a = sha512Entry) := by
  unfold algorithmsLookup at h
  split_ifs at h with h1 h2 h3
  · cases h
    exact ⟨h1.symm, rfl, Or.inl rfl⟩
  · cases h
    exact ⟨h2.symm, rfl, Or.inr (Or.inl rfl)⟩
  · cases h
    exact ⟨h3.symm, rfl, Or.inr (Or.inr rfl)⟩

theorem algEntry_name_facts (a : AlgEntry)
    (hcase : a = sha256Entry ∨ a = sha384Entry ∨ a = sha512Entry) :
    a.name ≠ [] ∧ a.name.all isAlgChar = true ∧ 0 < a.size := by
  rcases hcase with rfl | rfl | rfl <;> refine ⟨by decide, by decide, by decide⟩

theorem hexEncode_cons (b : Nat) (l : List Nat) :
    hexEncode (b :: l) = hexEncodeByte b ++ hexEncode l := rfl

theorem hexEncode_length (l : List Nat) : (hexEncode l).length = 2 * l.length := by
  induction l with
  | nil => rfl
  | cons b t ih =>
    rw [hexEncode_cons, List.length_append, ih]
    simp only [hexEncodeByte, List.length_cons, List.length, List.length_nil]
    omega

theorem hexDigitChars_lowerHex : ∀ n < 16,
    isLowerHexChar (hexDigitChars.getD n 'x') = true := by decide

theorem hexEncodeByte_lowerHex (b : Nat) (hb : b < 256) :
    ∀ c ∈ hexEncodeByte b, isLowerHexChar c = true := by
  intro c hc
  have hdiv : b / 16 < 16 := Nat.div_lt_of_lt_mul (by omega)
  have hmod : b % 16 < 16 := Nat.mod_lt _ (by omega)
  simp only [hexEncodeByte, List.mem_cons, List.mem_singleton, List.not_mem_nil,
    or_false] at hc
  rcases hc with rfl | rfl
  · exact hexDigitChars_lowerHex _ hdiv
  · exact hexDigitChars_lowerHex _ hmod

theorem hexEncode_all_lowerHex (l : List Nat) (hl : ∀ b ∈ l, b < 256) :
    (hexEncode l).all isLowerHexChar = true := by
  induction l with
  | nil => rfl
  | cons b t ih =>
    rw [hexEncode_cons, List.all_append]
    refine Bool.and_eq_true_iff.mpr ⟨?_, ?_⟩
    · exact List.all_eq_true.mpr
        (hexEncodeByte_lowerHex b (hl b (List.mem_cons_self b t)))
    · exact ih (fun x hx => hl x (List.mem_cons_of_mem b hx))

theorem hexEncode_all_hex (l : List Nat) (hl : ∀ b ∈ l, b < 256) :
    (hexEncode l).all isHexChar = true :=
  List.all_eq_true.mpr fun c hc =>
    isLowerHexChar_isHexChar (List.all_eq_true.mp (hexEncode_all_lowerHex l hl) c hc)

theorem hexDigit_inj : ∀ a < 16, ∀ b < 16,
    hexDigitChars.getD a 'x' = hexDigitChars.getD b 'x' → a = b := by decide

theorem hexEncode_inj (l1 l2 : List Nat)
    (h1 : ∀ b ∈ l1, b < 256) (h2 : ∀ b ∈ l2, b < 256)
    (h : hexEncode l1 = hexEncode l2) : l1 = l2 := by
  induction l1 generalizing l2 with
  | nil =>
    cases l2 with
    | nil => rfl
    | cons b t =>
      rw [hexEncode_cons] at h
      simp [hexEncode, hexEncodeByte] at h
  | cons a t1 ih =>
    cases l2 with
    | nil =>
      rw [hexEncode_cons] at h
      simp [hexEncode, hexEncodeByte] at h
    | cons b t2 =>
      rw [hexEncode_cons, hexEncode_cons] at h
      simp only [hexEncodeByte, List.cons_append, List.nil_append,
        List.cons.injEq] at h
      obtain ⟨hd1, hd2, ht⟩ := h
      have ha : a < 256 := h1 a (List.mem_cons_self a t1)
      have hb : b < 256 := h2 b (List.mem_cons_self b t2)
      have hdiv : a / 16 = b / 16 :=
        hexDigit_inj _ (Nat.div_lt_of_lt_mul (by omega)) _
          (Nat.div_lt_of_lt_mul (by omega)) hd1
      have hmod : a % 16 = b % 16 :=
        hexDigit_inj _ (Nat.mod_lt _ (by omega)) _ (Nat.mod_lt _ (by omega)) hd2
      have hab : a = b := by omega
      subst hab
      rw [ih t2 (fun x hx => h1 x (List.mem_cons_of_mem a hx))
        (fun x hx => h2 x (List.mem_cons_of_mem a hx)) ht]

theorem digestValidate_eq (s : List Char) (i : Nat)
    (h : indexOfColon s = some i) :
    digestValidate s =
      (if i + 1 = s.length then some .invalidFormat
       else if !digestRegexpAnchoredMatch s then some .invalidFormat
       else
         match algorithmsLookup (s.take i) with
         | none => some .unsupported
         | some alg =>
           if !alg.available then some .unsupported
           else if 2 * alg.size ≠ (s.drop (i + 1)).length then
             some .invalidLength
           else none) := by
  unfold digestValidate
  rw [h]

theorem digestValidate_append_eq_none (name enc : List Char) (alg : AlgEntry)
    (hl : algorithmsLookup name = some alg) (hav : alg.available = true)
    (hlen : 2 * alg.size = enc.length)
    (hn : name ≠ []) (hna : name.all isAlgChar = true)
    (he : enc ≠ []) (hhe : enc.all isHexChar = true) :
    digestValidate (name ++ ':' :: enc) = none := by
  have hnc : ∀ c ∈ name, ¬ c = ':' :=
    fun c hc => isAlgChar_ne_colon (List.all_eq_true.mp hna c hc)
  have hlength : ¬ (name.length + 1 = (name ++ ':' :: enc).length) := by
    rw [List.length_append, List.length_cons]
    have : enc.length ≠ 0 := fun h0 => he (List.eq_nil_of_length_eq_zero h0)
    omega
  rw [digestValidate_eq _ name.length (indexOfColon_append name enc hnc),
    if_neg hlength, digestRegexpAnchoredMatch_append name enc hn hna he hhe,
    take_append_colon, drop_append_colon, hl]
  simp only [Bool.not_true, Bool.false_eq_true, if_false, hav, hlen, ne_eq,
    not_true_eq_false]

theorem digestValidate_eq_none (s : List Char) (h : digestValidate s = none) :
    ∃ i alg, indexOfColon s = some i ∧ algorithmsLookup (s.take i) = some alg ∧
      alg.available = true ∧ 2 * alg.size = (s.drop (i + 1)).length := by
  cases hi : indexOfColon s with
  | none =>
    rw [digestValidate] at h
    rw [hi] at h
    simp at h
  | some i =>
    rw [digestValidate_eq s i hi] at h
    by_cases h1 : i + 1 = s.length
    · rw [if_pos h1] at h
      simp at h
    · rw [if_neg h1] at h
      cases hm : digestRegexpAnchoredMatch s with
      | false =>
        rw [hm] at h
        simp at h
      | true =>
        rw [hm] at h
        simp only [Bool.not_true, Bool.false_eq_true, if_false] at h
        cases halg : algorithmsLookup (s.take i) with
        | none =>
          rw [halg] at h
          simp at h
        | some alg =>
          rw [halg] at h
          cases hav : alg.available with
          | false => simp [hav] at h
          | true =>
            by_cases hlen : 2 * alg.size = (s.drop (i + 1)).length
            · exact ⟨i, alg, rfl, halg, hav, hlen⟩
            · simp [hav] at h
              exact absurd (by rw [List.length_drop]; exact h) hlen

theorem digestAlgorithmFn_eq (s : List Char) (i : Nat)
    (h : indexOfColon s = some i) :
    digestAlgorithmFn s =
      (if (s.take i).isEmpty then none
       else
         match algorithmsLookup (s.take i) with
         | none => none
         | some alg => if alg.available then some alg else none) := by
  unfold digestAlgorithmFn
  rw [h]

/-! ### Claims -/

/-- C1: the claim (and the repository's own test suite) expects an
otherwise-valid digest whose encoded portion is uppercase hex of the right
length to be rejected with `ErrDigestInvalidFormat`; but `Digest.Validate`
as implemented accepts it (`nil`), because `DigestRegexpAnchored` admits
`A-F` and no lowercase re-check against the per-algorithm matcher is ever
performed.  The per-algorithm `Algorithm.Validate`, by contrast, does
reject the same encoded portion with `ErrDigestInvalidFormat`. -/
theorem uppercaseDigest_accepted_by_validate :
    digestValidate
      ("sha256:E58FCF7418D4390DEC8E8FB69D88C06EC07039D651FEDD3AA72AF9972E7D046B".toList) =
      none ∧
    algorithmValidate initRegistry sha256Name
      ("E58FCF7418D4390DEC8E8FB69D88C06EC07039D651FEDD3AA72AF9972E7D046B".toList) =
      some DigestError.invalidFormat := by
  exact ⟨by decide, by decide⟩

/-- C2: for every registered, available algorithm and every input, the
digest produced by `FromBytes` — `<name>:<lowercase hex of the Size()-byte
hash output>` — validates cleanly: `Digest.Validate` returns `nil`. -/
theorem fromBytes_validates (H : List Nat → List Nat) (name : List Char)
    (alg : AlgEntry) (p : List Nat)
    (hl : algorithmsLookup name = some alg) (hav : alg.available = true)
    (hlen : (H p).length = alg.size) (hb : ∀ b ∈ H p, b < 256) :
    digestValidate (algorithmFromBytes H name p) = none := by
  obtain ⟨hname, _, hcase⟩ := algorithmsLookup_spec name alg hl
  obtain ⟨hn, hna, hsz⟩ := algEntry_name_facts alg hcase
  rw [hname] at hn hna
  show digestValidate (name ++ ':' :: hexEncode (H ([] ++ p))) = none
  rw [List.nil_append]
  refine digestValidate_append_eq_none name _ alg hl hav ?_ hn hna ?_ ?_
  · rw [hexEncode_length, hlen]
  · intro h0
    have hlen2 := hexEncode_length (H p)
    rw [h0, hlen, List.length_nil] at hlen2
    omega
  · exact hexEncode_all_hex _ hb

/-- Witness for C2 at the sha256 entry with a constant 32-byte hash. -/
theorem fromBytes_validates_witness :
    digestValidate
      (algorithmFromBytes (fun _ => List.replicate 32 0) sha256Name []) = none :=
  fromBytes_validates (fun _ => List.replicate 32 0) sha256Name sha256Entry []
    (by decide) (by decide) (by decide) (by decide)

/-- C4: a string `<name>:<encoded>` satisfying the anchored digest grammar
whose algorithm name is not registered-and-available is rejected with
`ErrDigestUnsupported`, whatever the length or content of the (grammar
conformant) encoded portion. -/
theorem unknownAlgorithm_unsupported (name enc : List Char)
    (hn : name ≠ []) (hna : name.all isAlgChar = true)
    (he : enc ≠ []) (hhe : enc.all isHexChar = true)
    (hun : ∀ alg, algorithmsLookup name = some alg → alg.available = false) :
    digestValidate (name ++ ':' :: enc) = some DigestError.unsupported := by
  have hnc : ∀ c ∈ name, ¬ c = ':' :=
    fun c hc => isAlgChar_ne_colon (List.all_eq_true.mp hna c hc)
  have hlength : ¬ (name.length + 1 = (name ++ ':' :: enc).length) := by
    rw [List.length_append, List.length_cons]
    have : enc.length ≠ 0 := fun h0 => he (List.eq_nil_of_length_eq_zero h0)
    omega
  rw [digestValidate_eq _ name.length (indexOfColon_append name enc hnc),
    if_neg hlength, digestRegexpAnchoredMatch_append name enc hn hna he hhe,
    take_append_colon]
  cases halg : algorithmsLookup name with
  | none => simp
  | some alg => simp [hun alg halg]

/-- Witness for C4 at `foo:d41d8cd98f00b204e9800998ecf8427e`. -/
theorem unknownAlgorithm_unsupported_witness :
    digestValidate
      ("foo".toList ++ ':' :: "d41d8cd98f00b204e9800998ecf8427e".toList) =
      some DigestError.unsupported :=
  unknownAlgorithm_unsupported ("foo".toList)
    ("d41d8cd98f00b204e9800998ecf8427e".toList)
    (by decide) (by decide) (by decide) (by decide)
    (fun alg halg => by
      have h0 : algorithmsLookup ("foo".toList) = none := by decide
      rw [h0] at halg
      cases halg)

/-- C5: a digest string `<A>:<encoded>` for a registered, available
algorithm `A` that satisfies the digest grammar but whose encoded portion
has a length different from `2 * A.Size()` is rejected with
`ErrDigestInvalidLength` (in particular, not `ErrDigestUnsupported`). -/
theorem knownAlgorithm_wrongLength (name enc : List Char) (alg : AlgEntry)
    (hl : algorithmsLookup name = some alg) (hav : alg.available = true)
    (he : enc ≠ []) (hhe : enc.all isHexChar = true)
    (hlen : enc.length ≠ 2 * alg.size) :
    digestValidate (name ++ ':' :: enc) = some DigestError.invalidLength := by
  obtain ⟨hname, _, hcase⟩ := algorithmsLookup_spec name alg hl
  obtain ⟨hn, hna, _⟩ := algEntry_name_facts alg hcase
  rw [hname] at hn hna
  have hnc : ∀ c ∈ name, ¬ c = ':' :=
    fun c hc => isAlgChar_ne_colon (List.all_eq_true.mp hna c hc)
  have hlength : ¬ (name.length + 1 = (name ++ ':' :: enc).length) := by
    rw [List.length_append, List.length_cons]
    have : enc.length ≠ 0 := fun h0 => he (List.eq_nil_of_length_eq_zero h0)
    omega
  rw [digestValidate_eq _ name.length (indexOfColon_append name enc hnc),
    if_neg hlength, digestRegexpAnchoredMatch_append name enc hn hna he hhe,
    take_append_colon, drop_append_colon, hl]
  simp only [Bool.not_true, Bool.false_eq_true, if_false, hav]
  rw [if_pos (fun hc => hlen hc.symm)]

/-- Witness for C5 at `sha256:abcdef0123456789`. -/
theorem knownAlgorithm_wrongLength_witness :
    digestValidate (sha256Name ++ ':' :: "abcdef0123456789".toList) =
      some DigestError.invalidLength :=
  knownAlgorithm_wrongLength sha256Name ("abcdef0123456789".toList) sha256Entry
    (by decide) (by decide) (by decide) (by decide) (by decide)

/-- C3: for a digest `d` with `Validate(d) == nil`, `Parse(d.String())`
returns exactly `(d, nil)`, and rebuilding the digest from its two parts —
`NewDigestFromHash(d.Algorithm().String(), d.Hash())` — yields a digest
equal to `d`. -/
theorem digest_roundtrip (s : List Char) (h : digestValidate s = none) :
    parseDigest (digestString s) = (s, none) ∧
    ∃ alg enc, digestAlgorithmFn s = some alg ∧ digestHashFn s = some enc ∧
      newDigestFromHash alg.name enc = s := by
  obtain ⟨i, alg, hi, halg, hav, _⟩ := digestValidate_eq_none s h
  obtain ⟨hname, _, _⟩ := algorithmsLookup_spec _ alg halg
  constructor
  · show (s, digestValidate s) = (s, none)
    rw [h]
  · refine ⟨alg, s.drop (i + 1), ?_, ?_, ?_⟩
    · rw [digestAlgorithmFn_eq s i hi]
      have hne : ¬ ((s.take i).isEmpty = true) := by
        intro hemp
        rw [List.isEmpty_iff] at hemp
        rw [hemp] at halg
        have h0 : algorithmsLookup ([] : List Char) = none := by decide
        rw [h0] at halg
        cases halg
      rw [if_neg hne, halg]
      simp [hav]
    · unfold digestHashFn
      rw [hi]
      rfl
    · show alg.name ++ ':' :: s.drop (i + 1) = s
      rw [hname]
      exact (indexOfColon_spec s i hi).2.1

/-- Witness for C3 at `sha256:` followed by 64 `a` characters. -/
theorem digest_roundtrip_witness :
    parseDigest (digestString
      ("sha256:aaaaaaaaaaaaaaaaaaaaaaaaaaaaaaaaaaaaaaaaaaaaaaaaaaaaaaaaaaaaaaaa".toList)) =
      ("sha256:aaaaaaaaaaaaaaaaaaaaaaaaaaaaaaaaaaaaaaaaaaaaaaaaaaaaaaaaaaaaaaaa".toList,
        none) ∧
    ∃ alg enc,
      digestAlgorithmFn
        ("sha256:aaaaaaaaaaaaaaaaaaaaaaaaaaaaaaaaaaaaaaaaaaaaaaaaaaaaaaaaaaaaaaaa".toList) =
        some alg ∧
      digestHashFn
        ("sha256:aaaaaaaaaaaaaaaaaaaaaaaaaaaaaaaaaaaaaaaaaaaaaaaaaaaaaaaaaaaaaaaa".toList) =
        some enc ∧
      newDigestFromHash alg.name enc =
        ("sha256:aaaaaaaaaaaaaaaaaaaaaaaaaaaaaaaaaaaaaaaaaaaaaaaaaaaaaaaaaaaaaaaa".toList) :=
  digest_roundtrip
    ("sha256:aaaaaaaaaaaaaaaaaaaaaaaaaaaaaaaaaaaaaaaaaaaaaaaaaaaaaaaaaaaaaaaa".toList)
    (by decide)

/-- C6: a verifier built from the digest of content `c` reports
`Verified() = true` exactly when the hash of the bytes written so far
equals the hash of `c`; the comparison is recomputed against the current
digester snapshot on every call (first conjunct), so the verdict always
reflects the total bytes written. -/
theorem verifier_verified_iff (H : List Nat → List Nat) (name : List Char)
    (alg : AlgEntry) (c w : List Nat)
    (hl : algorithmsLookup name = some alg) (hav : alg.available = true)
    (hc : ∀ b ∈ H c, b < 256) (hw : ∀ b ∈ H w, b < 256) :
    (∀ v : HashVerifier,
      verifierVerified H v = true ↔ v.digest = digesterDigest H v.digester) ∧
    ∃ v0, digestVerifier (algorithmFromBytes H name c) = some v0 ∧
      (verifierVerified H (verifierWrite v0 w) = true ↔ H w = H c) := by
  obtain ⟨hname, _, hcase⟩ := algorithmsLookup_spec name alg hl
  obtain ⟨hn, hna, _⟩ := algEntry_name_facts alg hcase
  rw [hname] at hn hna
  have hnc : ∀ x ∈ name, ¬ x = ':' :=
    fun x hx => isAlgChar_ne_colon (List.all_eq_true.mp hna x hx)
  have hgen : ∀ v : HashVerifier,
      verifierVerified H v = true ↔ v.digest = digesterDigest H v.digester :=
    fun v => by
      unfold verifierVerified
      exact ⟨fun h => of_decide_eq_true h, fun h => decide_eq_true h⟩
  refine ⟨hgen, ?_⟩
  have hfn : digestAlgorithmFn (name ++ ':' :: hexEncode (H c)) = some alg := by
    rw [digestAlgorithmFn_eq _ name.length
      (indexOfColon_append name (hexEncode (H c)) hnc), take_append_colon]
    have hne : ¬ ((name : List Char).isEmpty = true) := by
      intro hemp
      exact hn (List.isEmpty_iff.mp hemp)
    rw [if_neg hne, hl]
    simp [hav]
  refine ⟨⟨name ++ ':' :: hexEncode (H c), ⟨alg.name, []⟩⟩, ?_, ?_⟩
  · show (digestAlgorithmFn (name ++ ':' :: hexEncode (H ([] ++ c)))).map _ = _
    rw [List.nil_append, hfn]
    rfl
  · refine (hgen _).trans ?_
    show (name ++ ':' :: hexEncode (H c) =
      alg.name ++ ':' :: hexEncode (H ([] ++ w))) ↔ H w = H c
    rw [List.nil_append, hname]
    constructor
    · intro heq
      have h1 := List.append_cancel_left heq
      have h2 : hexEncode (H c) = hexEncode (H w) := by
        injection h1
      exact (hexEncode_inj _ _ hc hw h2).symm
    · intro heq
      rw [heq]

/-- Witness for C6 with the identity hash on the one-byte content `[0]`. -/
theorem verifier_verified_iff_witness :
    (∀ v : HashVerifier,
      verifierVerified (fun l => l) v = true ↔
        v.digest = digesterDigest (fun l => l) v.digester) ∧
    ∃ v0, digestVerifier (algorithmFromBytes (fun l => l) sha256Name [0]) =
        some v0 ∧
      (verifierVerified (fun l => l) (verifierWrite v0 [0]) = true ↔
        (fun l => l) [0] = (fun l => l) ([0] : List Nat)) :=
  verifier_verified_iff (fun l => l) sha256Name sha256Entry [0] [0]
    (by decide) (by decide) (by decide) (by decide)

def fooBytes : List Nat := [102, 111, 111]

def barBytes : List Nat := [98, 97, 114]

def foobarBytes : List Nat := [102, 111, 111, 98, 97, 114]

/-- C7: `Digester.Digest()` is a pure snapshot: writing `"foo"`, taking a
snapshot, writing `"bar"` into the same digester and taking a second
snapshot gives a first snapshot equal to the one-shot digest of `"foo"`
and a second equal to the one-shot digest of `"foobar"`, and (as the two
hash values differ) the snapshots differ. -/
theorem digester_snapshots (H : List Nat → List Nat) (name : List Char)
    (hb1 : ∀ b ∈ H fooBytes, b < 256) (hb2 : ∀ b ∈ H foobarBytes, b < 256)
    (hne : H fooBytes ≠ H foobarBytes) :
    digesterDigest H (digesterWrite ⟨name, []⟩ fooBytes) =
      algorithmFromBytes H name fooBytes ∧
    digesterDigest H (digesterWrite (digesterWrite ⟨name, []⟩ fooBytes) barBytes) =
      algorithmFromBytes H name foobarBytes ∧
    digesterDigest H (digesterWrite ⟨name, []⟩ fooBytes) ≠
      digesterDigest H (digesterWrite (digesterWrite ⟨name, []⟩ fooBytes) barBytes) := by
  refine ⟨rfl, rfl, ?_⟩
  intro heq
  have h1 : ':' :: hexEncode (H fooBytes) = ':' :: hexEncode (H foobarBytes) :=
    List.append_cancel_left heq
  have h2 : hexEncode (H fooBytes) = hexEncode (H foobarBytes) := by
    injection h1
  exact hne (hexEncode_inj _ _ hb1 hb2 h2)

/-- Witness for C7 with the identity hash and the sha256 name. -/
theorem digester_snapshots_witness :
    digesterDigest (fun l => l) (digesterWrite ⟨sha256Name, []⟩ fooBytes) =
      algorithmFromBytes (fun l => l) sha256Name fooBytes ∧
    digesterDigest (fun l => l)
        (digesterWrite (digesterWrite ⟨sha256Name, []⟩ fooBytes) barBytes) =
      algorithmFromBytes (fun l => l) sha256Name foobarBytes ∧
    digesterDigest (fun l => l) (digesterWrite ⟨sha256Name, []⟩ fooBytes) ≠
      digesterDigest (fun l => l)
        (digesterWrite (digesterWrite ⟨sha256Name, []⟩ fooBytes) barBytes) :=
  digester_snapshots (fun l => l) sha256Name (by decide) (by decide) (by decide)

/-- C8: `RegisterAlgorithm` returns `false` and leaves the registry
unchanged when the name is already registered; for a fresh name matching
the grammar it stores the implementation, stores the matcher
`^[a-f0-9]{2*Size}$`, and returns `true`. -/
theorem registerAlgorithm_behavior (st : Registry) (name : List Char)
    (impl : CryptoHash) (hg : algorithmRegexpMatch name = true) :
    ((registryLookup st name).isSome = true →
      registerAlgorithm st name impl = some (st, false)) ∧
    (registryLookup st name = none →
      registerAlgorithm st name impl =
        some (⟨st.algorithms ++ [(name, impl)],
          st.regexps ++ [(name, ⟨impl.size * 2⟩)]⟩, true)) := by
  constructor
  · intro hreg
    unfold registerAlgorithm
    rw [hg]
    simp [hreg]
  · intro hreg
    unfold registerAlgorithm
    rw [hg]
    simp [hreg, hexDigestRegex]

/-- Witness for C8: re-registering `sha256` is refused without change;
registering the fresh name `blake3` stores it with the 64-character
matcher. -/
theorem registerAlgorithm_behavior_witness :
    registerAlgorithm initRegistry sha256Name cryptoSHA256 =
      some (initRegistry, false) ∧
    registerAlgorithm initRegistry ("blake3".toList) ⟨true, 32⟩ =
      some (⟨initRegistry.algorithms ++ [(("blake3".toList), ⟨true, 32⟩)],
        initRegistry.regexps ++ [(("blake3".toList), ⟨64⟩)]⟩, true) :=
  ⟨(registerAlgorithm_behavior initRegistry sha256Name cryptoSHA256
      (by decide)).1 (by decide),
   (registerAlgorithm_behavior initRegistry ("blake3".toList) ⟨true, 32⟩
      (by decide)).2 (by decide)⟩

/-- C9: `Algorithm.Set` with the empty string selects the canonical
default (`sha256`) and succeeds when it is available; a non-empty value is
taken verbatim, and on an unknown or unavailable name it returns
`ErrDigestUnsupported` with the receiver left holding the rejected value
(the assignment happens before the availability check). -/
theorem algorithmSet_behavior (st : Registry) (prior value : List Char) :
    (registryAvailable st canonicalName = true →
      algorithmSet st prior [] = (canonicalName, none)) ∧
    (value ≠ [] → registryAvailable st value = false →
      algorithmSet st prior value = (value, some DigestError.unsupported)) := by
  constructor
  · intro hav
    unfold algorithmSet
    simp [hav]
  · intro hv hav
    unfold algorithmSet
    simp [hv, hav]

/-- Witness for C9: an empty value selects sha256; setting `bean` fails
with `Unsupported` while the receiver keeps `bean`. -/
theorem algorithmSet_behavior_witness :
    algorithmSet initRegistry ("sha512".toList) [] = (canonicalName, none) ∧
    algorithmSet initRegistry ("sha512".toList) ("bean".toList) =
      ("bean".toList, some DigestError.unsupported) :=
  ⟨(algorithmSet_behavior initRegistry ("sha512".toList) ("bean".toList)).1
      (by decide),
   (algorithmSet_behavior initRegistry ("sha512".toList) ("bean".toList)).2
      (by decide) (by decide)⟩

/-- C10: `AlgorithmFlag.Set` is atomic on failure: a non-empty value that
is absent from `Algorithms` or unavailable yields `ErrDigestUnsupported`
and leaves the flag exactly as it was; the flag is assigned only when the
lookup and availability check succeed, or when the value is empty (which
assigns `Canonical`). -/
theorem algorithmFlagSet_behavior (flag : Option AlgEntry) (value : List Char) :
    (value ≠ [] →
      (∀ alg, algorithmsLookup value = some alg → alg.available = false) →
      algorithmFlagSet flag value = (flag, some DigestError.unsupported)) ∧
    (algorithmFlagSet flag [] = (some sha256Entry, none)) ∧
    (∀ alg, value ≠ [] → algorithmsLookup value = some alg →
      alg.available = true → algorithmFlagSet flag value = (some alg, none)) := by
  refine ⟨?_, ?_, ?_⟩
  · intro hv hun
    unfold algorithmFlagSet
    rw [if_neg hv]
    cases halg : algorithmsLookup value with
    | none => rfl
    | some alg => simp [hun alg halg]
  · rfl
  · intro alg hv halg hav
    unfold algorithmFlagSet
    rw [if_neg hv, halg]
    simp [hav]

/-- Witness for C10: setting `bean` on a flag holding sha512 fails and
keeps sha512; setting `sha384` assigns the sha384 entry. -/
theorem algorithmFlagSet_behavior_witness :
    algorithmFlagSet (some sha512Entry) ("bean".toList) =
      (some sha512Entry, some DigestError.unsupported) ∧
    algorithmFlagSet (some sha512Entry) sha384Name = (some sha384Entry, none) :=
  ⟨(algorithmFlagSet_behavior (some sha512Entry) ("bean".toList)).1
      (by decide)
      (fun alg halg => by
        have h0 : algorithmsLookup ("bean".toList) = none := by decide
        rw [h0] at halg
        cases halg),
   (algorithmFlagSet_behavior (some sha512Entry) sha384Name).2.2 sha384Entry
      (by decide) (by decide) (by decide)⟩

end GoDigest
